import Mathlib

/-!
# Verification of the Starmap task dispatcher (openquake/baselib/parallel.py)

A shallow embedding of the serialization envelope (`Pickled`,
`pickle_sequence`), the `Result` envelope (`Result.__init__`, `Result.new`,
`Result.get`), the worker loop (`safely_call`), the dispatcher main loop
(`Starmap._loop`), the consumer iterator (`IterResult._iter`,
`IterResult.reduce`), the memory checks (`check_mem_usage`) and the
shutdown/shared-memory state machine (`Starmap.shutdown`,
`Starmap.create_shared`).

Python values that can travel through an envelope are embedded as the
inductive type `PyVal`; `pickle.dumps`/`pickle.loads` (standard library,
outside the repository) are modelled as an injective flat encoding
`encode : PyVal → List Nat` with decoder `decodeVal`, so that a `Pickled`
blob is a concrete symbol list whose length models `len(self.pik)`.
-/

set_option maxHeartbeats 1000000

namespace Parallel

/-- Embedded universe of picklable Python values: `None`, `int`, `str`,
functions (picklable by qualified name), lists, tuples, string-keyed dicts,
exception instances (class name, whether the class is a `KeyError` subclass,
and the message argument), and `Pickled` envelope instances themselves
(a `Pickled` object is an ordinary picklable Python object with attributes
`clsname`, `calc_id` and the byte blob `pik`). -/
inductive PyVal where
  | pynone
  | pyint (i : Int)
  | pystr (s : String)
  | pyfunc (name : String)
  | pylist (xs : List PyVal)
  | pytuple (xs : List PyVal)
  | pydict (kvs : List (String × PyVal))
  | pyexc (kind : String) (keysub : Bool) (arg : String)
  | pyenv (clsname : String) (calcid : String) (blob : List Nat)

/-- Flat encoding of a string: length prefix followed by the code points. -/
def encStr (s : String) : List Nat :=
  s.toList.length :: s.toList.map Char.toNat

/-- Flat encoding of an integer: sign symbol followed by the absolute value. -/
def encInt (i : Int) : List Nat :=
  [if i < 0 then 1 else 0, i.natAbs]

mutual

/-- Model of `pickle.dumps` restricted to the embedded value universe: a
self-describing tagged flat encoding. -/
def encode : PyVal → List Nat
  | .pynone => [0]
  | .pyint i => 1 :: encInt i
  | .pystr s => 2 :: encStr s
  | .pyfunc n => 3 :: encStr n
  | .pylist xs => 4 :: xs.length :: encodeList xs
  | .pytuple xs => 5 :: xs.length :: encodeList xs
  | .pydict kvs => 6 :: kvs.length :: encodeKVs kvs
  | .pyexc k b a => 7 :: (if b then 1 else 0) :: (encStr k ++ encStr a)
  | .pyenv c d blob => 8 :: (encStr c ++ encStr d ++ (blob.length :: blob))

/-- Encode the elements of a list or tuple, concatenated. -/
def encodeList : List PyVal → List Nat
  | [] => []
  | v :: vs => encode v ++ encodeList vs

/-- Encode dict items as alternating key strings and values, concatenated. -/
def encodeKVs : List (String × PyVal) → List Nat
  | [] => []
  | (k, v) :: kvs => encStr k ++ encode v ++ encodeKVs kvs

end

/-- Decode a length-prefixed string, returning it with the unconsumed rest. -/
def decodeStr : List Nat → Option (String × List Nat)
  | [] => none
  | n :: rest =>
    if n ≤ rest.length then
      some (String.mk ((rest.take n).map Char.ofNat), rest.drop n)
    else none

/-- Decode `n` consecutive values with the element decoder `d`. -/
def decodeListWith (d : List Nat → Option (PyVal × List Nat)) :
    Nat → List Nat → Option (List PyVal × List Nat)
  | 0, r => some ([], r)
  | n + 1, r =>
    match d r with
    | some (v, r1) =>
      match decodeListWith d n r1 with
      | some (vs, r2) => some (v :: vs, r2)
      | none => none
    | none => none

/-- Decode `n` consecutive key/value items with the value decoder `d`. -/
def decodeKVsWith (d : List Nat → Option (PyVal × List Nat)) :
    Nat → List Nat → Option (List (String × PyVal) × List Nat)
  | 0, r => some ([], r)
  | n + 1, r =>
    match decodeStr r with
    | some (k, r1) =>
      match d r1 with
      | some (v, r2) =>
        match decodeKVsWith d n r2 with
        | some (kvs, r3) => some ((k, v) :: kvs, r3)
        | none => none
      | none => none
    | none => none

/-- Model of `pickle.loads`: decoder for `encode`, with `fuel` bounding the
nesting depth. Returns the decoded value and the unconsumed rest. -/
def decodeVal : Nat → List Nat → Option (PyVal × List Nat)
  | 0, _ => none
  | _ + 1, [] => none
  | fuel + 1, t :: rest =>
    match t with
    | 0 => some (.pynone, rest)
    | 1 =>
      match rest with
      | s :: m :: r => some (.pyint (if s = 1 then -(m : Int) else (m : Int)), r)
      | _ => none
    | 2 =>
      match decodeStr rest with
      | some (s, r) => some (.pystr s, r)
      | none => none
    | 3 =>
      match decodeStr rest with
      | some (s, r) => some (.pyfunc s, r)
      | none => none
    | 4 =>
      match rest with
      | n :: r =>
        match decodeListWith (decodeVal fuel) n r with
        | some (xs, r1) => some (.pylist xs, r1)
        | none => none
      | [] => none
    | 5 =>
      match rest with
      | n :: r =>
        match decodeListWith (decodeVal fuel) n r with
        | some (xs, r1) => some (.pytuple xs, r1)
        | none => none
      | [] => none
    | 6 =>
      match rest with
      | n :: r =>
        match decodeKVsWith (decodeVal fuel) n r with
        | some (kvs, r1) => some (.pydict kvs, r1)
        | none => none
      | [] => none
    | 7 =>
      match rest with
      | b :: r =>
        match decodeStr r with
        | some (k, r1) =>
          match decodeStr r1 with
          | some (a, r2) => some (.pyexc k (b = 1) a, r2)
          | none => none
        | none => none
      | [] => none
    | 8 =>
      match decodeStr rest with
      | some (c, r1) =>
        match decodeStr r1 with
        | some (d, r2) =>
          match r2 with
          | n :: r3 =>
            if n ≤ r3.length then some (.pyenv c d (r3.take n), r3.drop n)
            else none
          | [] => none
        | none => none
      | none => none
    | _ => none

mutual

/-- Nesting depth of a value (leaves have depth 1); used to bound the fuel
the decoder needs. -/
def depthD : PyVal → Nat
  | .pylist xs => depthListD xs + 1
  | .pytuple xs => depthListD xs + 1
  | .pydict kvs => depthKVsD kvs + 1
  | _ => 1

/-- Maximum depth of the elements of a list. -/
def depthListD : List PyVal → Nat
  | [] => 0
  | v :: vs => max (depthD v) (depthListD vs)

/-- Maximum depth of the values of a dict. -/
def depthKVsD : List (String × PyVal) → Nat
  | [] => 0
  | (_, v) :: kvs => max (depthD v) (depthKVsD kvs)

end

theorem one_le_depthD (v : PyVal) : 1 ≤ depthD v := by
  cases v <;> simp [depthD]

theorem decodeStr_encStr (s : String) (r : List Nat) :
    decodeStr (encStr s ++ r) = some (s, r) := by
  have hfun : Char.ofNat ∘ Char.toNat = id := funext Char.ofNat_toNat
  have hlen : (s.toList.map Char.toNat).length = s.toList.length :=
    List.length_map _ _
  simp only [encStr, List.cons_append, decodeStr]
  rw [if_pos (by simp), List.take_left' hlen, List.drop_left' hlen,
    List.map_map, hfun, List.map_id]
  rfl

/-- Completeness of the decoder on encoder output: with enough fuel,
decoding an encoded value consumes exactly the encoding and returns the
value. -/
theorem decodeVal_encode : ∀ N : Nat, ∀ v : PyVal, depthD v ≤ N →
    ∀ fuel r, N ≤ fuel → decodeVal fuel (encode v ++ r) = some (v, r) := by
  intro N
  induction N with
  | zero => intro v hv; exact absurd (le_trans (one_le_depthD v) hv) (by omega)
  | succ N ih =>
    have hlist : ∀ xs : List PyVal, depthListD xs ≤ N → ∀ fuel r, N ≤ fuel →
        decodeListWith (decodeVal fuel) xs.length (encodeList xs ++ r) =
          some (xs, r) := by
      intro xs
      induction xs with
      | nil => intro _ fuel r _; simp [encodeList, decodeListWith]
      | cons v vs ihxs =>
        intro hd fuel r hf
        have hdv : depthD v ≤ N := le_trans (le_max_left _ _) hd
        have hdvs : depthListD vs ≤ N := le_trans (le_max_right _ _) hd
        simp only [encodeList, List.append_assoc, List.length_cons, decodeListWith,
          ih v hdv fuel _ hf, ihxs hdvs fuel r hf]
    have hkvs : ∀ kvs : List (String × PyVal), depthKVsD kvs ≤ N →
        ∀ fuel r, N ≤ fuel →
        decodeKVsWith (decodeVal fuel) kvs.length (encodeKVs kvs ++ r) =
          some (kvs, r) := by
      intro kvs
      induction kvs with
      | nil => intro _ fuel r _; simp [encodeKVs, decodeKVsWith]
      | cons kv kvs ihkvs =>
        intro hd fuel r hf
        obtain ⟨k, v⟩ := kv
        have hdv : depthD v ≤ N := le_trans (le_max_left _ _) hd
        have hdvs : depthKVsD kvs ≤ N := le_trans (le_max_right _ _) hd
        simp only [encodeKVs, List.append_assoc, List.length_cons, decodeKVsWith,
          decodeStr_encStr, ih v hdv fuel _ hf, ihkvs hdvs fuel r hf]
    intro v hd fuel r hf
    match fuel, hf with
    | f + 1, hf =>
      have hNf : N ≤ f := by omega
      cases v with
      | pynone => simp [encode, decodeVal]
      | pyint i =>
        simp only [encode, encInt, List.cons_append, decodeVal]
        split_ifs with h h2 h3 <;>
          simp_all [abs_of_neg, abs_of_nonneg, le_of_not_lt]
      | pystr s =>
        simp [encode, decodeVal, decodeStr_encStr]
      | pyfunc n =>
        simp [encode, decodeVal, decodeStr_encStr]
      | pylist xs =>
        have hxs : depthListD xs ≤ N := by simp [depthD] at hd; omega
        simp [encode, decodeVal, hlist xs hxs f r hNf]
      | pytuple xs =>
        have hxs : depthListD xs ≤ N := by simp [depthD] at hd; omega
        simp [encode, decodeVal, hlist xs hxs f r hNf]
      | pydict kvs =>
        have hxs : depthKVsD kvs ≤ N := by simp [depthD] at hd; omega
        simp [encode, decodeVal, hkvs kvs hxs f r hNf]
      | pyexc k b a =>
        simp only [encode, List.cons_append, List.append_assoc, decodeVal,
          decodeStr_encStr]
        cases b <;> simp [decodeStr_encStr]
      | pyenv c d blob =>
        simp only [encode, List.cons_append, List.append_eq, List.append_assoc,
          decodeVal, decodeStr_encStr]
        rw [if_pos (by simp), List.take_left' rfl, List.drop_left' rfl]

theorem depthD_le_encode_length : ∀ N : Nat, ∀ v : PyVal, depthD v ≤ N →
    depthD v ≤ (encode v).length := by
  intro N
  induction N with
  | zero => intro v hv; exact absurd (le_trans (one_le_depthD v) hv) (by omega)
  | succ N ih =>
    have one_le_len : ∀ v : PyVal, 1 ≤ (encode v).length := by
      intro v; cases v <;> simp [encode]
    have hlist : ∀ xs : List PyVal, depthListD xs ≤ N →
        depthListD xs ≤ (encodeList xs).length := by
      intro xs
      induction xs with
      | nil => intro _; simp [depthListD]
      | cons v vs ihxs =>
        intro hd
        have hdv : depthD v ≤ N := le_trans (le_max_left _ _) hd
        have hdvs : depthListD vs ≤ N := le_trans (le_max_right _ _) hd
        have h1 := ih v hdv
        have h2 := ihxs hdvs
        simp only [depthListD, encodeList, List.length_append]
        omega
    have hkvs : ∀ kvs : List (String × PyVal), depthKVsD kvs ≤ N →
        depthKVsD kvs ≤ (encodeKVs kvs).length := by
      intro kvs
      induction kvs with
      | nil => intro _; simp [depthKVsD]
      | cons kv kvs ihkvs =>
        intro hd
        obtain ⟨k, v⟩ := kv
        have hdv : depthD v ≤ N := le_trans (le_max_left _ _) hd
        have hdvs : depthKVsD kvs ≤ N := le_trans (le_max_right _ _) hd
        have h1 := ih v hdv
        have h2 := ihkvs hdvs
        simp only [depthKVsD, encodeKVs, List.length_append]
        omega
    intro v hd
    cases v with
    | pylist xs =>
      have hxs : depthListD xs ≤ N := by simp [depthD] at hd; omega
      have := hlist xs hxs
      simp only [depthD, encode, List.length_cons]
      omega
    | pytuple xs =>
      have hxs : depthListD xs ≤ N := by simp [depthD] at hd; omega
      have := hlist xs hxs
      simp only [depthD, encode, List.length_cons]
      omega
    | pydict kvs =>
      have hxs : depthKVsD kvs ≤ N := by simp [depthD] at hd; omega
      have := hkvs kvs hxs
      simp only [depthD, encode, List.length_cons]
      omega
    | pynone => simp [depthD, encode]
    | pyint i => simp [depthD, encode, encInt]
    | pystr s => simp [depthD, encode, encStr]
    | pyfunc n => simp [depthD, encode, encStr]
    | pyexc k b a => simp [depthD, encode, encStr]
    | pyenv c d blob => simp [depthD, encode, encStr]

/-- `obj.__class__.__name__`, as recorded by `Pickled.__init__`. -/
def clsName : PyVal → String
  | .pynone => "NoneType"
  | .pyint _ => "int"
  | .pystr _ => "str"
  | .pyfunc _ => "function"
  | .pylist _ => "list"
  | .pytuple _ => "tuple"
  | .pydict _ => "dict"
  | .pyexc k _ _ => k
  | .pyenv _ _ _ => "Pickled"

/-- `str(getattr(obj, 'calc_id', ''))`, as recorded by `Pickled.__init__`:
only `Pickled` instances carry a `calc_id` attribute in this universe. -/
def calcIdAttr : PyVal → String
  | .pyenv _ d _ => d
  | _ => ""

/-- The `Pickled` envelope of `parallel.py`: class-name tag, calc-id tag and
the pickled byte blob `pik`. -/
structure PickledObj where
  clsname : String
  calc_id : String
  pik : List Nat
  deriving DecidableEq, Repr

/-- `Pickled(obj)`: record the class name and `calc_id` tag and pickle the
object (`pickle.dumps(obj, HIGHEST_PROTOCOL)`). -/
def mkPickled (v : PyVal) : PickledObj :=
  ⟨clsName v, calcIdAttr v, encode v⟩

/-- `Pickled.__len__`: length of the pickled bytestring. -/
def PickledObj.len (p : PickledObj) : Nat := p.pik.length

/-- `Pickled.unpickle`: `pickle.loads(self.pik)`; `none` models an
`UnpicklingError` on a malformed blob. -/
def PickledObj.unpickle (p : PickledObj) : Option PyVal :=
  match decodeVal (p.pik.length + 1) p.pik with
  | some (v, []) => some v
  | _ => none

theorem unpickle_mkPickled (v : PyVal) : (mkPickled v).unpickle = some v := by
  have hd : depthD v ≤ (encode v).length :=
    depthD_le_encode_length (depthD v) v le_rfl
  have h := decodeVal_encode (depthD v) v le_rfl ((encode v).length + 1) []
    (by omega)
  rw [List.append_nil] at h
  simp [mkPickled, PickledObj.unpickle, h]

/-- `len(Pickled(v)) = len(v's blob)`. -/
theorem len_mkPickled (v : PyVal) : (mkPickled v).len = (encode v).length := rfl

/-- A Python object reference as seen by `pickle_sequence`: the object
together with its identity `id(obj)`. An object is either ordinary data or
an already-built `Pickled` envelope. -/
inductive PyObj where
  | dat (v : PyVal)
  | env (p : PickledObj)

/-- An object together with its CPython identity (`id(obj)`). -/
structure ObjRef where
  oid : Nat
  obj : PyObj

/-- How `pickle_sequence` fills its cache: an object already pickled is
stored as is, any other object is wrapped in a fresh `Pickled`. -/
def objToPickled : PyObj → PickledObj
  | .dat v => mkPickled v
  | .env p => p

/-- Whether the cache-miss branch constructs a new `Pickled` (counted to
state the "pickled only once" guarantee). -/
def isDat : PyObj → Bool
  | .dat _ => true
  | .env _ => false

/-- One step of `pickle_sequence`'s loop body, given the current cache
`id(obj) -> Pickled`: returns the envelope for this object, the updated
cache, and how many new `Pickled` objects were constructed (0 or 1). -/
def pickleStep (cache : List (Nat × PickledObj)) (o : ObjRef) :
    PickledObj × List (Nat × PickledObj) × Nat :=
  match (cache.lookup o.oid : Option PickledObj) with
  | some p => (p, cache, 0)
  | none =>
    let p := objToPickled o.obj
    (p, (o.oid, p) :: cache, if isDat o.obj then 1 else 0)

/-- The loop of `pickle_sequence` over the remaining objects, threading the
cache; returns the output list and the number of `Pickled` constructions. -/
def pickleSeqAux (cache : List (Nat × PickledObj)) :
    List ObjRef → List PickledObj × Nat
  | [] => ([], 0)
  | o :: os =>
    let (p, cache1, c) := pickleStep cache o
    let (ps, cs) := pickleSeqAux cache1 os
    (p :: ps, c + cs)

/-- `pickle_sequence(objects)`: convert an iterable of objects into a list
of pickled objects, pickling each distinct object (by identity) only once
and passing through objects that are already pickled. -/
def pickleSeq (objects : List ObjRef) : List PickledObj :=
  (pickleSeqAux [] objects).1

/-- Number of `Pickled(obj)` constructor calls made by `pickle_sequence`. -/
def pickleSeqCount (objects : List ObjRef) : Nat :=
  (pickleSeqAux [] objects).2

/-- Minimal Monitor record. `openquake.baselib.performance.Monitor` is an
external collaborator (not under src/); only the fields `parallel.py`
reads and writes are modelled. -/
structure Monitor where
  operation : String := ""
  counts : Nat := 0
  version : String := ""
  dbHost : String := ""
  calc_id : Option Nat := none
  inject : Bool := false
  duration : Nat := 0
  deriving DecidableEq, Repr

/-- Modelled from the spec: `Monitor.__exit__` (performance.py, missing
from src/) "always runs (on normal and error paths)" and `counts` counts
the exits of the monitored block, so leaving the `with mon:` block
increments `counts` by one even when the call raised. -/
def monExit (mon : Monitor) : Monitor :=
  { mon with counts := mon.counts + 1 }

/-- `mon.new(operation='total ' + name, measuremem=True)` as used by
`safely_call`: a child monitor for the whole task. -/
def monNewTotal (mon : Monitor) (name : String) : Monitor :=
  { mon with operation := "total " ++ name }

/-- Ambient state seen by a worker: the master's engine version and
dbserver host (`engine_version()` and `config` are external
collaborators), the machine's memory state, hostname and worker pid. -/
structure WorkerEnv where
  engineVersion : String := ""
  dbHost : String := ""
  softPercent : Nat := 90
  hardPercent : Nat := 98
  usedPercent : Nat := 0
  hostname : String := "localhost"
  pid : Nat := 0
  deriving DecidableEq, Repr

/-- The warning text `'Using over %d%% of the memory in %s!'`. -/
def softMemMsg (env : WorkerEnv) : String :=
  "Using over " ++ toString env.usedPercent ++ "% of the memory in " ++
    env.hostname ++ "!"

/-- `check_mem_usage`: raise `MemoryError` above the hard limit, return a
warning message above the soft limit, otherwise `None`. -/
def checkMemUsage (env : WorkerEnv) : Except String (Option String) :=
  if env.usedPercent > env.hardPercent then
    .error ("Using more memory than allowed by configuration (Used: " ++
      toString env.usedPercent ++ "% / Allowed: " ++
      toString env.hardPercent ++ "%)! Shutting down.")
  else if env.usedPercent > env.softPercent then
    .ok (some (softMemMsg env))
  else .ok none

/-- The payload slot `self.pik` of a `Result`: a single `Pickled`, a list
of `Pickled` envelopes (subtask args from `pickle_sequence`), or a
`FakePickle` that only remembers a byte count. -/
inductive Payload where
  | one (p : PickledObj)
  | args (ps : List PickledObj)
  | fake (sentbytes : Nat)
  deriving DecidableEq, Repr

/-- `len(self.pik)`, following Python: blob length for a `Pickled`, number
of elements for a list of envelopes, the remembered byte count for a
`FakePickle`. -/
def Payload.len : Payload → Nat
  | .one p => p.len
  | .args ps => ps.length
  | .fake n => n

/-- `self.pik.unpickle()`: `FakePickle.unpickle` returns `None`; a list of
envelopes has no `unpickle` method (`AttributeError`), but such payloads
are intercepted by the dispatcher before any `get`. -/
def Payload.unpickleP : Payload → Except String PyVal
  | .one p =>
    match p.unpickle with
    | some v => .ok v
    | none => .error "UnpicklingError"
  | .args _ => .error "AttributeError"
  | .fake _ => .ok .pynone

/-- The `Result` envelope: optional subtask callable, payload, per-field
byte sizes, monitor, traceback string (empty when no exception), message
string and worker id `(hostname, pid)`. -/
structure Result where
  func : Option String := none
  pik : Payload
  nbytes : List (String × Nat)
  mon : Monitor
  tb_str : String := ""
  msg : String := ""
  workerid : String × Nat
  deriving DecidableEq, Repr

/-- The value handed to `Result.__init__`: either an ordinary Python value
or a tuple whose elements carry their object identities (so the subtask
branch can call `pickle_sequence` on them). -/
inductive TaskVal where
  | pv (v : PyVal)
  | tup (elems : List ObjRef)

/-- `callable(obj)`: in this universe only function objects are callable. -/
def PyObj.callable : PyObj → Bool
  | .dat (.pyfunc _) => true
  | _ => false

/-- The identifier of a callable object. -/
def PyObj.funcName : PyObj → Option String
  | .dat (.pyfunc f) => some f
  | _ => none

/-- View an object as a plain picklable value (a `Pickled` instance is
itself a picklable object). -/
def PyObj.toVal : PyObj → PyVal
  | .dat v => v
  | .env p => .pyenv p.clsname p.calc_id p.pik

/-- `Result.__init__`: a dict is pickled with per-key byte sizes; a tuple
whose first element is callable becomes a subtask request whose remaining
elements go through `pickle_sequence`; `msg == 'TASK_ENDED'` pickles
`None` with no byte accounting; anything else is pickled whole. The
`IndexError` branch models `val[0]` on an empty tuple. -/
def Result.make (env : WorkerEnv) (val : TaskVal) (mon : Monitor)
    (tb_str : String := "") (msg : String := "") : Except String Result :=
  let wid := (env.hostname, env.pid)
  match val with
  | .pv (.pydict kvs) =>
    .ok { func := none, pik := .one (mkPickled (.pydict kvs)),
          nbytes := kvs.map (fun kv => (kv.1, (mkPickled kv.2).len)),
          mon := mon, tb_str := tb_str, msg := msg, workerid := wid }
  | .tup [] => .error "IndexError"
  | .tup (e :: rest) =>
    if e.obj.callable then
      .ok { func := e.obj.funcName, pik := .args (pickleSeq rest),
            nbytes := [("args", ((pickleSeq rest).map PickledObj.len).sum)],
            mon := mon, tb_str := tb_str, msg := msg, workerid := wid }
    else if msg = "TASK_ENDED" then
      .ok { func := none, pik := .one (mkPickled .pynone), nbytes := [],
            mon := mon, tb_str := tb_str, msg := msg, workerid := wid }
    else
      .ok { func := none,
            pik := .one (mkPickled
              (.pytuple ((e :: rest).map (fun o => o.obj.toVal)))),
            nbytes := [("tot", (mkPickled
              (.pytuple ((e :: rest).map (fun o => o.obj.toVal)))).len)],
            mon := mon, tb_str := tb_str, msg := msg, workerid := wid }
  | .pv v =>
    if msg = "TASK_ENDED" then
      .ok { func := none, pik := .one (mkPickled .pynone), nbytes := [],
            mon := mon, tb_str := tb_str, msg := msg, workerid := wid }
    else
      .ok { func := none, pik := .one (mkPickled v),
            nbytes := [("tot", (mkPickled v).len)],
            mon := mon, tb_str := tb_str, msg := msg, workerid := wid }

/-- Outcome of the call performed inside `Result.new`: a value,
`StopIteration`, or another exception (kind, `KeyError`-subclass flag,
message, formatted traceback). -/
inductive CallOutcome where
  | ok (val : TaskVal)
  | stop
  | exc (kind : String) (keysub : Bool) (arg : String) (tb : String)

/-- `Result.new(func, args, mon, sentbytes)`: run the version and dbserver
checks (a mismatch raises `RuntimeError`, caught by the generic handler
below with the monitor not yet entered), call the function inside
`with mon:`, and package the outcome. On `StopIteration` the counts
increment of the monitor exit is undone (`mon.counts -= 1`), the result is
a `TASK_ENDED` message and its payload is replaced by
`FakePickle(sentbytes)`. Any other exception is packaged with its
formatted traceback. -/
def ResultNew (env : WorkerEnv) (outcome : CallOutcome) (mon : Monitor)
    (sentbytes : Nat) : Except String Result :=
  if mon.version ≠ "" ∧ mon.version ≠ env.engineVersion then
    Result.make env (.pv (.pyexc "RuntimeError" false
      ("The master is at version " ++ mon.version ++ " while the worker " ++
        env.hostname ++ " is at version " ++ env.engineVersion))) mon
      "Traceback: version check" ""
  else if mon.dbHost ≠ env.dbHost then
    Result.make env (.pv (.pyexc "RuntimeError" false
      ("The master has dbserver.host=" ++ mon.dbHost ++
        " while the worker has " ++ env.dbHost))) mon
      "Traceback: dbserver check" ""
  else
    match outcome with
    | .ok val => Result.make env val (monExit mon)
    | .stop =>
      match Result.make env (.pv .pynone)
          { monExit mon with counts := (monExit mon).counts - 1 }
          "" "TASK_ENDED" with
      | .ok r => .ok { r with pik := .fake sentbytes }
      | .error e => .error e
    | .exc k ks a tb =>
      Result.make env (.pv (.pyexc k ks a)) (monExit mon) tb ""

/-- `val.__class__` as needed by `Result.get`: class name and whether the
class is a subclass of `KeyError`. -/
def classOf : PyVal → String × Bool
  | .pyexc k ks _ => (k, ks)
  | v => (clsName v, false)

/-- `str(val)`: for an exception instance `str` returns its argument. -/
def strOf : PyVal → String
  | .pynone => "None"
  | .pyint i => toString i
  | .pystr s => s
  | .pyexc _ _ a => a
  | _ => "<obj>"

/-- A raised Python exception: class name and message. -/
structure RaisedExc where
  kind : String
  msg : String
  deriving DecidableEq, Repr

/-- `Result.get`: unpickle the payload; if a traceback was recorded,
re-raise an exception of the value's class with the traceback embedded in
the message — unless that class is a `KeyError` subclass, in which case a
`RuntimeError` with the same (formatted) message is raised. -/
def Result.get (r : Result) : Except RaisedExc PyVal :=
  match r.pik.unpickleP with
  | .error e => .error ⟨e, ""⟩
  | .ok val =>
    if r.tb_str ≠ "" then
      let et := classOf val
      let m := "\n" ++ r.tb_str ++ et.1 ++ ": " ++ strOf val
      if et.2 then .error ⟨"RuntimeError", m⟩ else .error ⟨et.1, m⟩
    else .ok val

/-- How the generator driving a task finishes: exhausted
(`StopIteration`), or with an exception. -/
inductive TaskEnd where
  | stop
  | exc (kind : String) (keysub : Bool) (arg : String) (tb : String)

/-- How the send loop of `safely_call` finishes once the generator has no
more values: `next(it)` raises either `StopIteration` (one `TASK_ENDED`
result) or the task's exception (a failure result; the loop does not break
— only `TASK_ENDED` breaks — so the following `next(it)` on the closed
generator raises `StopIteration` and a `TASK_ENDED` follows the failure).
The monitor is threaded through (its counts mutate across calls) and
`sentbytes` accumulates `len(res.pik)` of every sent result. -/
def runGenEnd (env : WorkerEnv) (mon : Monitor) (sent : Nat) :
    TaskEnd → Except String (List Result)
  | .stop =>
    match ResultNew env .stop mon sent with
    | .ok r => .ok [r]
    | .error e => .error e
  | .exc k ks a tb =>
    match ResultNew env (.exc k ks a tb) mon sent with
    | .ok r =>
      match ResultNew env .stop r.mon (sent + r.pik.len) with
      | .ok r2 => .ok [r, r2]
      | .error e => .error e
    | .error e => .error e

/-- The yielding part of the send loop, recursing over the generator's
yields and closing with `runGenEnd`. -/
def runGen (env : WorkerEnv) (mon : Monitor) (sent : Nat) :
    List TaskVal → TaskEnd → Except String (List Result)
  | [], ending => runGenEnd env mon sent ending
  | v :: vs, ending =>
    match ResultNew env (.ok v) mon sent with
    | .ok r =>
      match runGen env r.mon (sent + r.pik.len) vs ending with
      | .ok rs => .ok (r :: rs)
      | .error e => .error e
    | .error e => .error e

/-- The emission of `safely_call` after the monitor has been derived:
check memory (crossing the soft limit sends a warning `Result` before the
task runs; crossing the hard limit raises `MemoryError`), then run the
send loop until `TASK_ENDED`. Returns the `Result`s pushed to the ingress
socket, in order. -/
def safelyCallEmit (env : WorkerEnv) (mon : Monitor) (yields : List TaskVal)
    (ending : TaskEnd) : Except String (List Result) :=
  match checkMemUsage env with
  | .error e => .error e
  | .ok msgOpt =>
    let pre : List Result :=
      match msgOpt with
      | some m =>
        match Result.make env (.pv .pynone) mon "" m with
        | .ok w => [w]
        | .error _ => []
      | none => []
    match runGen env mon 0 yields ending with
    | .ok rs => .ok (pre ++ rs)
    | .error e => .error e

/-- Python `s.startswith(pre)`: `pre` is a prefix of `s`'s characters. -/
def strStartsWith (s pre : String) : Bool := pre.toList.isPrefixOf s.toList

/-- Python `s.endswith(suf)`: `suf` is a suffix of `s`'s characters. -/
def strEndsWith (s suf : String) : Bool := suf.toList.isSuffixOf s.toList

/-- `Starmap.__init__`: the monitor's inject flag is computed from the
task function's declared argument names (`getargnames`); it is true iff
the last argument name starts or ends with `'mon'`. An empty argument
list makes `argnames[-1]` raise `IndexError`. -/
def monitorInjectFlag (argnames : List String) : Except String Bool :=
  match argnames.getLast? with
  | none => .error "IndexError"
  | some a => .ok (strStartsWith a "mon" || strEndsWith a "mon")

/-- A positional argument of a task call: ordinary data or the injected
per-task Monitor. -/
inductive Arg where
  | data (v : PyVal)
  | monArg

/-- `safely_call`: `if mon.inject: args += (mon,)`. -/
def safelyCallArgs (mon : Monitor) (args : List Arg) : List Arg :=
  if mon.inject then args ++ [Arg.monArg] else args

/-- Dispatcher-side state of `Starmap._loop`: the in-flight count
(`todo`), the task queue, the busy-time accumulator, the number of
discard warnings logged, and the tasks pulled from the queue and handed
to the backend by `_submit_many`. -/
structure LoopState where
  todo : Nat
  queue : List (String × Payload)
  busytime : List ((String × Nat) × Nat)
  warnCount : Nat
  submitted : List (String × Payload)
  deriving DecidableEq, Repr

/-- `Starmap._submit_many(1)`: pull the head of the task queue (if any),
submit it and increment the in-flight count. -/
def submitOne (s : LoopState) : LoopState :=
  match s.queue with
  | [] => s
  | q :: rest =>
    { s with
      queue := rest
      submitted := s.submitted ++ [q]
      todo := s.todo + 1 }

/-- One iteration of the body of `Starmap._loop` on the next ingress
`Result`: a result whose monitor's `calc_id` differs from this Starmap's
is discarded with a warning; a `TASK_ENDED` records busy time, decrements
`todo`, refills one task from the queue and is yielded upward; a result
carrying a subtask callable is appended to the queue (with its pickled
args) and a refill attempted, without being yielded; any other result is
yielded to the consumer. -/
def loopStep (calcId : Option Nat) (s : LoopState) (res : Result) :
    LoopState × Option Result :=
  if calcId ≠ res.mon.calc_id then
    ({ s with warnCount := s.warnCount + 1 }, none)
  else if res.msg = "TASK_ENDED" then
    (submitOne { s with
        busytime := s.busytime ++ [(res.workerid, res.mon.duration)],
        todo := s.todo - 1 }, some res)
  else
    match res.func with
    | some f =>
      (submitOne { s with queue := s.queue ++ [(f, res.pik)] }, none)
    | none => (s, some res)

/-- The drain loop of `Starmap._loop`: process ingress results while
`todo > 0`, collecting the results yielded to `IterResult`. -/
def loopRun (calcId : Option Nat) (s : LoopState) :
    List Result → LoopState × List Result
  | [] => (s, [])
  | res :: rest =>
    if s.todo = 0 then (s, [])
    else
      let s1 := (loopStep calcId s res).1
      let out := (loopStep calcId s res).2
      let s2 := (loopRun calcId s1 rest).1
      let outs := (loopRun calcId s1 rest).2
      match out with
      | some r => (s2, r :: outs)
      | none => (s2, outs)

/-- Observable outcome of `IterResult._iter`: the values yielded to the
consumer, the number of memory warnings logged, and the exception raised,
if any. -/
structure IterOut where
  vals : List PyVal
  logged : Nat
  raised : Option RaisedExc

/-- `IterResult._iter`: for every result coming from the dispatcher loop,
check memory (logging the warning only the first time), `get()` the value
(re-raising failures), process `TASK_ENDED` results without yielding
(their monitor is flushed to the store), skip results carrying a subtask
callable, and yield everything else to the consumer. -/
def iterRun (env : WorkerEnv) (firstTime : Bool) : List Result → IterOut
  | [] => ⟨[], 0, none⟩
  | r :: rest =>
    match checkMemUsage env with
    | .error e => ⟨[], 0, some ⟨"MemoryError", e⟩⟩
    | .ok msgOpt =>
      let logHere := if msgOpt.isSome && firstTime then 1 else 0
      let firstTime1 := if msgOpt.isSome && firstTime then false else firstTime
      match r.get with
      | .error e => ⟨[], logHere, some e⟩
      | .ok val =>
        let out := iterRun env firstTime1 rest
        if r.msg = "TASK_ENDED" then
          ⟨out.vals, logHere + out.logged, out.raised⟩
        else
          match r.func with
          | some _ => ⟨out.vals, logHere + out.logged, out.raised⟩
          | none => ⟨val :: out.vals, logHere + out.logged, out.raised⟩

/-- Addition of dict values as performed by the additive accumulator
(the letter-count job only ever adds integer counts). -/
def valAdd : PyVal → PyVal → PyVal
  | .pyint m, .pyint n => .pyint (m + n)
  | v, _ => v

/-- Insert a key into an association list, adding to the existing value
when the key is present. -/
def dictInsertAdd (kvs : List (String × PyVal)) (k : String) (v : PyVal) :
    List (String × PyVal) :=
  match kvs with
  | [] => [(k, v)]
  | (k1, v1) :: rest =>
    if k1 = k then (k1, valAdd v1 v) :: rest
    else (k1, v1) :: dictInsertAdd rest k v

/-- Modelled from the spec: the default accumulator of `reduce` is an
`AccumDict` (openquake.baselib.general, missing from src/), "an additive
map (addition = element-wise sum / mapping union with per-key add)". -/
def pyAdd : PyVal → PyVal → PyVal
  | .pydict a, .pydict b =>
    .pydict (b.foldl (fun acc kv => dictInsertAdd acc kv.1 kv.2) a)
  | a, _ => a

/-- `IterResult.reduce(agg=operator.add, acc=None → AccumDict())`: fold
the yielded values with the aggregator. -/
def reduceVals (acc : PyVal) (vals : List PyVal) : PyVal :=
  vals.foldl pyAdd acc

/-- Modelled from the spec: the example task `count(word)` "returns
`{letter: count}`" (`collections.Counter` is standard library); keys
appear in first-appearance order as in Python. -/
def counter (w : String) : List (String × PyVal) :=
  w.toList.foldl
    (fun acc c => dictInsertAdd acc (String.singleton c) (.pyint 1)) []

/-- The example task `count(word)` of parallel.py. -/
def countTask (w : String) : PyVal := .pydict (counter w)

/-- Python `==` on the values of this job (ints and string-keyed dicts);
dict equality disregards insertion order. -/
def valEqB : PyVal → PyVal → Bool
  | .pyint m, .pyint n => m == n
  | .pystr a, .pystr b => a == b
  | .pynone, .pynone => true
  | _, _ => false

/-- Python `==` on string-keyed dicts with scalar values: both directions
of key lookup agree. -/
def pyDictEqB : PyVal → PyVal → Bool
  | .pydict a, .pydict b =>
    (a.all fun kv =>
      match b.lookup kv.1 with
      | some v => valEqB kv.2 v
      | none => false) &&
    (b.all fun kv =>
      match a.lookup kv.1 with
      | some v => valEqB kv.2 v
      | none => false)
  | _, _ => false

/-- All arrival orders of the ingress: interleavings of the two workers'
emission sequences (per-task order is preserved, cross-task order is
arbitrary — this is exactly the freedom the `inline`, `processpool` and
`threadpool` backends have). -/
def interleavingsF : Nat → List Result → List Result → List (List Result)
  | _, [], ys => [ys]
  | _, x :: xs, [] => [x :: xs]
  | fuel + 1, x :: xs, y :: ys =>
    (interleavingsF fuel xs (y :: ys)).map (fun l => x :: l) ++
      (interleavingsF fuel (x :: xs) ys).map (fun l => y :: l)
  | 0, _ :: _, _ :: _ => []

/-- All interleavings, with enough fuel for both lists. -/
def interleavings (xs ys : List Result) : List (List Result) :=
  interleavingsF (xs.length + ys.length) xs ys

/-- Class-level state of `Starmap` relevant to `shutdown`, together with
the operating system's registry of live named shared-memory buffers. -/
structure ShutState where
  shared : List String
  registry : List String
  hasPool : Bool
  pids : List Nat
  hasExecutor : Bool
  deriving DecidableEq, Repr

/-- `shmem.SharedMemory(name).unlink()`: attaching to a name that is no
longer live raises `FileNotFoundError`. -/
def unlinkShm (reg : List String) (name : String) :
    Except String (List String) :=
  if name ∈ reg then .ok (reg.filter (fun n => n ≠ name))
  else .error "FileNotFoundError"

/-- `for shared in cls.shared: SharedMemory(shared.name).unlink()`. -/
def unlinkAll (reg : List String) : List String → Except String (List String)
  | [] => .ok reg
  | n :: rest =>
    match unlinkShm reg n with
    | .ok r1 => unlinkAll r1 rest
    | .error e => .error e

/-- `Starmap.shutdown`: unlink every buffer recorded in `cls.shared` (the
list itself is not cleared), then close/terminate/join and delete the
pool (resetting `pids`); with no pool, a remaining executor is shut down
(no class state changes). -/
def shutdown (s : ShutState) : Except String ShutState :=
  match unlinkAll s.registry s.shared with
  | .error e => .error e
  | .ok reg =>
    if s.hasPool then
      .ok { s with registry := reg, hasPool := false, pids := [] }
    else
      .ok { s with registry := reg }

/-- `Starmap.create_shared(shape, dtype, value)`: allocate a named
`SharedMemory` buffer (the OS hands out a name not currently live) and
record it in `cls.shared`. -/
def createShared (s : ShutState) (name : String) :
    Except String ShutState :=
  if name ∈ s.registry then .error "FileExistsError"
  else
    .ok { s with
          registry := s.registry ++ [name]
          shared := s.shared ++ [name] }

/-- The warning `Result(None, mon, msg=msg)` sent by `safely_call` when the
soft memory limit is crossed. -/
def warningResult (env : WorkerEnv) (mon : Monitor) (m : String) : Result :=
  { func := none, pik := .one (mkPickled .pynone),
    nbytes := [("tot", (mkPickled .pynone).len)], mon := mon, tb_str := "",
    msg := m, workerid := (env.hostname, env.pid) }

/-- Python `==` between an unpickled value and an original object: a plain
value compares by value; a `Pickled` instance defines no `__eq__`, so a
freshly unpickled object never equals it. -/
def pyEqObjB : Option PyVal → PyObj → Bool
  | some v, .dat w => valEqB v w
  | _, .env _ => false
  | none, _ => false

/-- A one-element sequence whose object is already a `Pickled` envelope. -/
def envelopeInput : List ObjRef := [⟨0, .env (mkPickled (.pyint 42))⟩]

/-- A class-level `Starmap` state holding one live shared-memory buffer. -/
def leakState : ShutState := ⟨["shm0"], ["shm0"], true, [7], false⟩

/-- Worker environment of the letter-count job: plenty of memory, default
version and dbserver host. -/
def letterEnv : WorkerEnv := { usedPercent := 10 }

/-- Per-task monitor of the letter-count job (`calc_id` 1). -/
def letterMon : Monitor := { calc_id := some 1 }

/-- The `Result`s pushed to the ingress by the worker running
`count(word)`: `safely_call` wraps the plain function in a one-yield
generator, so the emission is one value result and one `TASK_ENDED`. -/
def letterResults (w : String) : List Result :=
  match safelyCallEmit letterEnv (monNewTotal letterMon "count")
      [.pv (countTask w)] .stop with
  | .ok rs => rs
  | .error _ => []

/-- Dispatcher loop state after submitting the two letter-count tasks. -/
def letterStart : LoopState := ⟨2, [], [], 0, []⟩

/-- The reduced map the spec expects for `['hello', 'world']`. -/
def letterExpected : PyVal :=
  .pydict [("d", .pyint 1), ("e", .pyint 1), ("h", .pyint 1),
    ("l", .pyint 3), ("o", .pyint 2), ("r", .pyint 1), ("w", .pyint 1)]

/-- End-to-end letter-count job for one arrival order of the ingress:
drain the loop, iterate the results and reduce with the default additive
accumulator. -/
def letterReduce (arrival : List Result) : PyVal :=
  reduceVals (.pydict [])
    (iterRun letterEnv true (loopRun (some 1) letterStart arrival).2).vals

/-- A failure `Result` carrying a pickled `ValueError("boom")`. -/
def vErrResult : Result :=
  { func := none, pik := .one (mkPickled (.pyexc "ValueError" false "boom")),
    nbytes := [], mon := {}, tb_str := "TB", msg := "",
    workerid := ("h", 1) }

/-- A failure `Result` carrying a pickled `KeyError("k")`. -/
def kErrResult : Result :=
  { func := none, pik := .one (mkPickled (.pyexc "KeyError" true "k")),
    nbytes := [], mon := {}, tb_str := "TB", msg := "",
    workerid := ("h", 1) }

/-- A value `Result` from a different job (`calc_id` 2). -/
def otherJobResult : Result :=
  { func := none, pik := .one (mkPickled .pynone), nbytes := [],
    mon := { calc_id := some 2 }, tb_str := "", msg := "",
    workerid := ("h", 1) }

/-- Head of a yielded subtask tuple: a callable. -/
def subtaskHead : ObjRef := ⟨1, .dat (.pyfunc "g")⟩

/-- Tail of a yielded 3-tuple: the subtask's arguments. -/
def subtaskRest : List ObjRef := [⟨2, .dat (.pyint 7)⟩, ⟨3, .dat (.pystr "x")⟩]

/-- The subtask-request `Result` built from the 3-tuple
`(g, 7, 'x')` by `Result.__init__`. -/
def subtaskRes : Result :=
  { func := some "g", pik := .args (pickleSeq subtaskRest),
    nbytes := [("args", ((pickleSeq subtaskRest).map PickledObj.len).sum)],
    mon := { calc_id := some 5 }, tb_str := "", msg := "",
    workerid := ("localhost", 0) }

/-- The `TASK_ENDED` result of a task that yielded nothing, with
`sentbytes = 0`. -/
def endedRes0 : Result :=
  { func := none, pik := .fake 0, nbytes := [], mon := {}, tb_str := "",
    msg := "TASK_ENDED", workerid := ("localhost", 0) }

/-- The `TASK_ENDED` result with `sentbytes = 5`. -/
def endedRes5 : Result :=
  { func := none, pik := .fake 5, nbytes := [], mon := {}, tb_str := "",
    msg := "TASK_ENDED", workerid := ("localhost", 0) }

/-- A worker environment whose memory usage is over the soft limit but
under the hard limit. -/
def c6env : WorkerEnv := ⟨"", "", 50, 99, 60, "localhost", 0⟩

/-- Two references to the same object (`id` 7). -/
def dupInput : List ObjRef := [⟨7, .dat (.pyint 3)⟩, ⟨7, .dat (.pyint 3)⟩]

/-! ## Helper lemmas -/

theorem unpickleP_one_mkPickled (v : PyVal) :
    (Payload.one (mkPickled v)).unpickleP = .ok v := by
  simp [Payload.unpickleP, unpickle_mkPickled]

theorem loopStep_yield (calcId : Option Nat) (s : LoopState) (res y : Result)
    (h : (loopStep calcId s res).2 = some y) :
    y = res ∧ res.mon.calc_id = calcId := by
  unfold loopStep at h
  by_cases h1 : calcId ≠ res.mon.calc_id
  · rw [if_pos h1] at h
    simp at h
  · rw [if_neg h1] at h
    push_neg at h1
    by_cases h2 : res.msg = "TASK_ENDED"
    · rw [if_pos h2] at h
      simp at h
      exact ⟨h.symm, h1.symm⟩
    · rw [if_neg h2] at h
      cases hf : res.func with
      | some f => rw [hf] at h; simp at h
      | none =>
        rw [hf] at h
        simp at h
        exact ⟨h.symm, h1.symm⟩

theorem loopRun_calcId (calcId : Option Nat) :
    ∀ (stream : List Result) (s : LoopState) (r : Result),
    r ∈ (loopRun calcId s stream).2 → r.mon.calc_id = calcId := by
  intro stream
  induction stream with
  | nil => intro s r h; simp [loopRun] at h
  | cons res rest ih =>
    intro s r h
    simp only [loopRun] at h
    by_cases h0 : s.todo = 0
    · rw [if_pos h0] at h
      simp at h
    · rw [if_neg h0] at h
      cases hstep : (loopStep calcId s res).2 with
      | none =>
        rw [hstep] at h
        exact ih _ r h
      | some y =>
        rw [hstep] at h
        rcases List.mem_cons.mp h with hry | hmem
        · obtain ⟨hyr, hc⟩ := loopStep_yield calcId s res y hstep
          rw [hry, hyr, hc]
        · exact ih _ r hmem

theorem unlinkAll_sub (names : List String) : ∀ (reg reg' : List String),
    unlinkAll reg names = .ok reg' → ∀ n ∈ reg', n ∈ reg := by
  induction names with
  | nil =>
    intro reg reg' h n hn
    simp [unlinkAll] at h
    rw [h]
    exact hn
  | cons m rest ih =>
    intro reg reg' h n hn
    simp only [unlinkAll] at h
    cases h1 : unlinkShm reg m with
    | error e => rw [h1] at h; simp at h
    | ok r1 =>
      rw [h1] at h
      have hmem := ih r1 reg' h n hn
      unfold unlinkShm at h1
      by_cases hm : m ∈ reg
      · rw [if_pos hm] at h1
        simp at h1
        rw [← h1] at hmem
        exact List.mem_of_mem_filter hmem
      · rw [if_neg hm] at h1
        simp at h1

theorem unlinkAll_removed (names : List String) : ∀ (reg reg' : List String),
    unlinkAll reg names = .ok reg' → ∀ n ∈ names, n ∉ reg' := by
  induction names with
  | nil => intro reg reg' h n hn; simp at hn
  | cons m rest ih =>
    intro reg reg' h n hn
    simp only [unlinkAll] at h
    cases h1 : unlinkShm reg m with
    | error e => rw [h1] at h; simp at h
    | ok r1 =>
      rw [h1] at h
      rcases List.mem_cons.mp hn with hnm | hn1
      · intro hmem
        have hsub := unlinkAll_sub rest r1 reg' h n hmem
        unfold unlinkShm at h1
        by_cases hm : m ∈ reg
        · rw [if_pos hm] at h1
          simp at h1
          rw [← h1] at hsub
          rw [hnm] at hsub
          have := List.of_mem_filter hsub
          simp at this
        · rw [if_neg hm] at h1
          simp at h1
      · exact ih r1 reg' h n hn1

theorem pickleSeqAux_map : ∀ (objs : List ObjRef) (cache : List (Nat × PickledObj)),
    (∀ o ∈ objs, ∀ p, cache.lookup o.oid = some p → p = objToPickled o.obj) →
    (∀ o1 ∈ objs, ∀ o2 ∈ objs, o1.oid = o2.oid → o1.obj = o2.obj) →
    (pickleSeqAux cache objs).1 = objs.map (fun o => objToPickled o.obj) := by
  intro objs
  induction objs with
  | nil => intro cache _ _; simp [pickleSeqAux]
  | cons o os ih =>
    intro cache hc hwf
    simp only [pickleSeqAux, pickleStep, List.map_cons]
    cases hlk : (cache.lookup o.oid : Option PickledObj) with
    | some p =>
      simp only [hlk]
      rw [hc o (List.mem_cons_self o os) p hlk]
      rw [ih cache
        (fun o1 h1 p1 hp1 => hc o1 (List.mem_cons_of_mem o h1) p1 hp1)
        (fun o1 h1 o2 h2 he =>
          hwf o1 (List.mem_cons_of_mem o h1) o2 (List.mem_cons_of_mem o h2) he)]
    | none =>
      simp only [hlk]
      rw [ih ((o.oid, objToPickled o.obj) :: cache) ?_ ?_]
      · intro o1 h1 p1 hp1
        rw [List.lookup_cons] at hp1
        by_cases hid : (o1.oid == o.oid) = true
        · simp only [hid] at hp1
          have hobj : o1.obj = o.obj :=
            (hwf o (List.mem_cons_self o os) o1 (List.mem_cons_of_mem o h1)
              (Nat.eq_of_beq_eq_true (by simpa using hid)).symm).symm
          simp at hp1
          rw [← hp1, hobj]
        · rw [Bool.not_eq_true] at hid
          simp only [hid] at hp1
          exact hc o1 (List.mem_cons_of_mem o h1) p1 hp1
      · intro o1 h1 o2 h2 he
        exact hwf o1 (List.mem_cons_of_mem o h1) o2 (List.mem_cons_of_mem o h2) he

theorem pickleSeqAux_count_cached : ∀ (os : List ObjRef) (cache : List (Nat × PickledObj)),
    (∀ o ∈ os, (cache.lookup o.oid : Option PickledObj).isSome) →
    (pickleSeqAux cache os).2 = 0 := by
  intro os
  induction os with
  | nil => intro cache _; simp [pickleSeqAux]
  | cons o os ih =>
    intro cache hc
    simp only [pickleSeqAux, pickleStep]
    cases hlk : (cache.lookup o.oid : Option PickledObj) with
    | some p =>
      simp only [hlk]
      rw [ih cache (fun o1 h1 => hc o1 (List.mem_cons_of_mem o h1))]
    | none =>
      have := hc o (List.mem_cons_self o os)
      rw [hlk] at this
      simp at this

theorem resultNew_ok_shape (env : WorkerEnv) (mon : Monitor) (v : TaskVal)
    (sent : Nat) (r : Result)
    (hv : mon.version = "") (hh : mon.dbHost = env.dbHost)
    (h : ResultNew env (.ok v) mon sent = .ok r) :
    r.mon = monExit mon ∧ r.msg = "" ∧ r.tb_str = "" := by
  unfold ResultNew at h
  rw [if_neg (by simp [hv]), if_neg (by simp [hh])] at h
  unfold Result.make at h
  rcases v with v | elems
  · rcases v with _ | i | s | n | xs | xs | kvs | ⟨k, ks, a⟩ | ⟨c, d, blob⟩ <;>
      simp at h <;>
      exact ⟨by rw [← h], by rw [← h], by rw [← h]⟩
  · rcases elems with _ | ⟨e, rest⟩
    · simp at h
    · by_cases hcall : e.obj.callable = true
      · simp only [hcall] at h
        simp at h
        exact ⟨by rw [← h], by rw [← h], by rw [← h]⟩
      · rw [Bool.not_eq_true] at hcall
        simp only [hcall] at h
        simp at h
        exact ⟨by rw [← h], by rw [← h], by rw [← h]⟩

theorem runGen_stop_shape (env : WorkerEnv) :
    ∀ (yields : List TaskVal) (mon : Monitor) (sent : Nat) (rs : List Result),
    mon.version = "" → mon.dbHost = env.dbHost →
    runGen env mon sent yields .stop = .ok rs →
    (rs.filter (fun x => x.msg = "TASK_ENDED")).length = 1 ∧
    ∃ rend, rs.getLast? = some rend ∧ rend.msg = "TASK_ENDED" ∧
      rend.pik.len = sent + ((rs.dropLast).map (fun x => x.pik.len)).sum := by
  intro yields
  induction yields with
  | nil =>
    intro mon sent rs hv hh h
    simp only [runGen, runGenEnd] at h
    unfold ResultNew at h
    rw [if_neg (by simp [hv]), if_neg (by simp [hh])] at h
    unfold Result.make at h
    simp at h
    subst h
    refine ⟨by simp, ?_⟩
    refine ⟨_, rfl, rfl, ?_⟩
    simp [Payload.len]
  | cons v vs ih =>
    intro mon sent rs hv hh h
    simp only [runGen] at h
    cases hres : ResultNew env (.ok v) mon sent with
    | error e => rw [hres] at h; simp at h
    | ok r =>
      rw [hres] at h
      simp only [Except.ok.injEq] at h
      cases hrec : runGen env r.mon (sent + r.pik.len) vs .stop with
      | error e => rw [hrec] at h; simp at h
      | ok rs1 =>
        rw [hrec] at h
        simp at h
        obtain ⟨hmon, hmsg, htb⟩ := resultNew_ok_shape env mon v sent r hv hh hres
        have hv1 : r.mon.version = "" := by rw [hmon]; simpa [monExit] using hv
        have hh1 : r.mon.dbHost = env.dbHost := by rw [hmon]; simpa [monExit] using hh
        obtain ⟨hfil, rend, hlast, hmend, hlen⟩ :=
          ih r.mon (sent + r.pik.len) rs1 hv1 hh1 hrec
        have hne : rs1 ≠ [] := by
          intro hnil
          rw [hnil] at hlast
          simp at hlast
        rw [← h]
        constructor
        · have hmt : ¬(r.msg = "TASK_ENDED") := by rw [hmsg]; simp
          simp [List.filter_cons, hmt, hfil]
        · cases rs1 with
          | nil => exact absurd rfl hne
          | cons b t =>
            refine ⟨rend, ?_, hmend, ?_⟩
            · rw [List.getLast?_cons_cons]
              exact hlast
            · rw [List.dropLast_cons₂]
              simp only [List.map_cons, List.sum_cons]
              omega

theorem softMemMsg_ne_ended (env : WorkerEnv) : softMemMsg env ≠ "TASK_ENDED" := by
  intro heq
  have hlen := congrArg String.length heq
  unfold softMemMsg at hlen
  rw [String.length_append, String.length_append, String.length_append,
    String.length_append] at hlen
  have h1 : ("Using over ").length = 11 := rfl
  have h2 : ("TASK_ENDED").length = 10 := rfl
  omega

theorem checkMemUsage_soft (env : WorkerEnv)
    (hsoft : env.softPercent < env.usedPercent)
    (hhard : env.usedPercent ≤ env.hardPercent) :
    checkMemUsage env = .ok (some (softMemMsg env)) := by
  unfold checkMemUsage
  rw [if_neg (by omega), if_pos hsoft]

theorem iterRun_logged_false (env : WorkerEnv) : ∀ rs : List Result,
    (iterRun env false rs).logged = 0 := by
  intro rs
  induction rs with
  | nil => rfl
  | cons r rest ih =>
    simp only [iterRun]
    cases hc : checkMemUsage env with
    | error e => simp
    | ok m =>
      cases hg : r.get with
      | error e => simp
      | ok val =>
        by_cases hm : r.msg = "TASK_ENDED"
        · simp [hm, ih]
        · cases hf : r.func with
          | some f => simp [hm, hf, ih]
          | none => simp [hm, hf, ih]

theorem iterRun_logged_once (env : WorkerEnv) (r : Result) (rest : List Result)
    (hsoft : env.softPercent < env.usedPercent)
    (hhard : env.usedPercent ≤ env.hardPercent) :
    (iterRun env true (r :: rest)).logged = 1 := by
  have hc := checkMemUsage_soft env hsoft hhard
  simp only [iterRun, hc]
  cases hg : r.get with
  | error e => simp
  | ok val =>
    by_cases hm : r.msg = "TASK_ENDED"
    · simp [hm, iterRun_logged_false]
    · cases hf : r.func with
      | some f => simp [hm, hf, iterRun_logged_false]
      | none => simp [hm, hf, iterRun_logged_false]

theorem iterRun_warning_head (env : WorkerEnv) (mon : Monitor)
    (rest : List Result)
    (hsoft : env.softPercent < env.usedPercent)
    (hhard : env.usedPercent ≤ env.hardPercent) :
    (iterRun env true (warningResult env mon (softMemMsg env) :: rest)).vals =
      .pynone :: (iterRun env false rest).vals ∧
    (iterRun env true (warningResult env mon (softMemMsg env) :: rest)).raised =
      (iterRun env false rest).raised := by
  have hc := checkMemUsage_soft env hsoft hhard
  have hg : (warningResult env mon (softMemMsg env)).get = .ok .pynone := by
    simp [Result.get, warningResult, unpickleP_one_mkPickled]
  simp only [iterRun, hc, hg]
  simp [softMemMsg_ne_ended env, warningResult]

/-! ## Claims -/

/-- C2: serialization round-trip — for every value `v` the serializer can
encode, unwrapping the envelope produced by wrapping `v` returns a value
equal to `v`: `Pickled(v).unpickle() == v`. -/
theorem C2_pickled_roundtrip (v : PyVal) : (mkPickled v).unpickle = some v :=
  unpickle_mkPickled v

/-- C4: failure re-raising at the consumer — for a failure `Result`
(non-empty traceback) whose payload unpickles to an exception of kind `k`,
`Result.get` raises an exception of the same kind with the backtrace
embedded in the message, except that a kind that is a subclass of
`KeyError` is re-raised as a generic `RuntimeError` carrying the same
formatted message. -/
theorem C4_failure_reraise (r : Result) (k : String) (ks : Bool) (a : String)
    (h1 : r.tb_str ≠ "") (h2 : r.pik.unpickleP = .ok (.pyexc k ks a)) :
    r.get = .error ⟨if ks then "RuntimeError" else k,
      "\n" ++ r.tb_str ++ k ++ ": " ++ a⟩ := by
  simp only [Result.get, h2]
  rw [if_pos h1]
  cases ks <;> simp [classOf, strOf]

/-- Witness for C4 at a `ValueError` failure and a `KeyError` failure. -/
theorem C4_failure_reraise_witness :
    vErrResult.tb_str ≠ "" ∧
    vErrResult.get = .error ⟨"ValueError", "\nTBValueError: boom"⟩ ∧
    kErrResult.get = .error ⟨"RuntimeError", "\nTBKeyError: k"⟩ := by
  refine ⟨by decide, ?_, ?_⟩
  · have h := C4_failure_reraise vErrResult "ValueError" false "boom"
      (by decide) (by rfl)
    simpa using h
  · have h := C4_failure_reraise kErrResult "KeyError" true "k"
      (by decide) (by rfl)
    simpa using h

/-- C5, counterexample: `Starmap.shutdown` does not clear `cls.shared`, so
with one shared buffer allocated the first call succeeds (and unlinks the
buffer) but the second call raises `FileNotFoundError` when it unlinks the
same name again — `shutdown` is not idempotent as claimed. -/
theorem C5_shutdown_counterexample :
    shutdown leakState = .ok ⟨["shm0"], [], false, [], false⟩ ∧
    (shutdown leakState).bind shutdown = .error "FileNotFoundError" := by
  exact ⟨rfl, rfl⟩

/-- C5, amended: after a successful `shutdown` every buffer recorded in
`cls.shared` has been unlinked from the registry; and when no shared
buffer was allocated (`cls.shared` empty) `shutdown` is idempotent: a
second call succeeds and returns the same state. -/
theorem C5_shutdown_amended (s s' : ShutState) (h : shutdown s = .ok s') :
    (∀ n ∈ s.shared, n ∉ s'.registry) ∧
    (s.shared = [] → shutdown s' = .ok s') := by
  constructor
  · intro n hn
    unfold shutdown at h
    cases hu : unlinkAll s.registry s.shared with
    | error e => rw [hu] at h; simp at h
    | ok reg =>
      simp only [hu] at h
      have hrem := unlinkAll_removed s.shared s.registry reg hu n hn
      by_cases hp : s.hasPool
      · rw [if_pos hp] at h
        simp at h
        rw [← h]
        exact hrem
      · rw [if_neg hp] at h
        simp at h
        rw [← h]
        exact hrem
  · intro hsh
    unfold shutdown at h
    rw [hsh] at h
    simp only [unlinkAll] at h
    by_cases hp : s.hasPool
    · rw [if_pos hp] at h
      simp at h
      rw [← h]
      simp [shutdown, hsh, unlinkAll]
    · rw [if_neg hp] at h
      simp at h
      rw [← h]
      simp [shutdown, hsh, unlinkAll, hp]

/-- Witness for C5's amended statement on a state with no shared buffers. -/
theorem C5_shutdown_amended_witness :
    shutdown (⟨[], ["x"], false, [], false⟩ : ShutState) =
      .ok ⟨[], ["x"], false, [], false⟩ :=
  (C5_shutdown_amended ⟨[], ["x"], false, [], false⟩
    ⟨[], ["x"], false, [], false⟩ rfl).2 rfl

/-- C7: cross-job isolation — a `Result` whose monitor's `calc_id` differs
from this Starmap's `calc_id` is discarded with a warning: nothing is
yielded, `todo` and the queue are untouched (only the warning count
changes); consequently every result the consumer sees from the main loop
belongs to this job. -/
theorem C7_cross_job (calcId : Option Nat) (s : LoopState) (res : Result)
    (stream : List Result) (h : res.mon.calc_id ≠ calcId) :
    loopStep calcId s res = ({ s with warnCount := s.warnCount + 1 }, none) ∧
    (∀ r, r ∈ (loopRun calcId s stream).2 → r.mon.calc_id = calcId) := by
  refine ⟨?_, fun r hr => loopRun_calcId calcId stream s r hr⟩
  unfold loopStep
  rw [if_pos (Ne.symm h)]

/-- Witness for C7: a result from job 2 arriving at the dispatcher of
job 1 is discarded. -/
theorem C7_cross_job_witness :
    loopStep (some 1) ⟨2, [], [], 0, []⟩ otherJobResult =
      ((⟨2, [], [], 1, []⟩ : LoopState), none) ∧
    (loopRun (some 1) ⟨2, [], [], 0, []⟩ [otherJobResult]).2 = [] := by
  refine ⟨?_, rfl⟩
  exact (C7_cross_job (some 1) ⟨2, [], [], 0, []⟩ otherJobResult
    [otherJobResult] (by decide)).1

/-- C9: monitor injection — `Starmap.__init__` sets the inject flag iff
the task's last declared parameter name begins or ends with `mon`, and
`safely_call` appends the per-task Monitor as an extra last argument iff
that flag is set; with any other last parameter name the argument tuple
is left unchanged. -/
theorem C9_monitor_injection (argnames : List String) (mon : Monitor)
    (args : List Arg) (h : argnames ≠ []) :
    monitorInjectFlag argnames =
      .ok (strStartsWith (argnames.getLast h) "mon" ||
           strEndsWith (argnames.getLast h) "mon") ∧
    (safelyCallArgs
        { mon with inject := strStartsWith (argnames.getLast h) "mon" ||
            strEndsWith (argnames.getLast h) "mon" } args =
      args ++ [Arg.monArg] ↔
      (strStartsWith (argnames.getLast h) "mon" ||
       strEndsWith (argnames.getLast h) "mon") = true) ∧
    ((strStartsWith (argnames.getLast h) "mon" ||
      strEndsWith (argnames.getLast h) "mon") = false →
      safelyCallArgs
        { mon with inject := strStartsWith (argnames.getLast h) "mon" ||
            strEndsWith (argnames.getLast h) "mon" } args = args) := by
  refine ⟨?_, ?_, ?_⟩
  · unfold monitorInjectFlag
    rw [List.getLast?_eq_getLast argnames h]
  · cases hb : (strStartsWith (argnames.getLast h) "mon" ||
        strEndsWith (argnames.getLast h) "mon") with
    | false =>
      simp only [safelyCallArgs, hb]
      constructor
      · intro heq
        have hl := congrArg List.length heq
        simp at hl
      · intro hf
        exact absurd hf (by simp)
    | true => simp [safelyCallArgs, hb]
  · intro hb
    simp [safelyCallArgs, hb]

/-- Witness for C9 on a task whose last parameter is named `monitor`. -/
theorem C9_monitor_injection_witness :
    monitorInjectFlag ["elements", "monitor"] = .ok true := by
  have h := (C9_monitor_injection ["elements", "monitor"] {} [] (by simp)).1
  have he : (strStartsWith (["elements", "monitor"].getLast (by simp)) "mon" ||
      strEndsWith (["elements", "monitor"].getLast (by simp)) "mon") = true := rfl
  rw [he] at h
  exact h

/-- C10: subtask tuples — a value that is a non-empty tuple with a
callable first element (of any length) is packaged as a subtask request:
`Result.func` is the callable and the remaining elements are pickled with
identity deduplication as its args; in the main loop such a result is
enqueued as a new task and never yielded to the consumer. -/
theorem C10_subtask_tuple (env : WorkerEnv) (e : ObjRef) (f : String)
    (rest : List ObjRef) (mon : Monitor) (tb msg : String) (res : Result)
    (calcId : Option Nat) (s : LoopState)
    (hcall : e.obj = .dat (.pyfunc f))
    (hmk : Result.make env (.tup (e :: rest)) mon tb msg = .ok res)
    (hmsg : msg ≠ "TASK_ENDED")
    (hcid : res.mon.calc_id = calcId) :
    res.func = some f ∧
    res.pik = .args (pickleSeq rest) ∧
    res.nbytes = [("args", ((pickleSeq rest).map PickledObj.len).sum)] ∧
    loopStep calcId s res =
      (submitOne { s with queue := s.queue ++ [(f, res.pik)] }, none) := by
  unfold Result.make at hmk
  simp only [hcall, PyObj.callable, PyObj.funcName] at hmk
  simp at hmk
  have hfunc : res.func = some f := by rw [← hmk]
  have hpik : res.pik = .args (pickleSeq rest) := by rw [← hmk]
  have hnb : res.nbytes =
      [("args", ((pickleSeq rest).map PickledObj.len).sum)] := by rw [← hmk]
  have hmsg' : res.msg = msg := by rw [← hmk]
  refine ⟨hfunc, hpik, hnb, ?_⟩
  unfold loopStep
  rw [if_neg (by simp [hcid])]
  rw [if_neg (by rw [hmsg']; exact hmsg)]
  simp [hfunc]

/-- Witness for C10 on the 3-tuple `(g, 7, 'x')` in job 5. -/
theorem C10_subtask_tuple_witness :
    subtaskRes.func = some "g" ∧
    loopStep (some 5) ⟨1, [], [], 0, []⟩ subtaskRes =
      (submitOne ⟨1, [("g", subtaskRes.pik)], [], 0, []⟩, none) := by
  have h := C10_subtask_tuple {} subtaskHead "g" subtaskRest
    { calc_id := some 5 } "" "" subtaskRes (some 5) ⟨1, [], [], 0, []⟩
    rfl rfl (by decide) rfl
  exact ⟨h.1, by simpa using h.2.2.2⟩

/-- C3: `StopIteration` handling in the worker — the first two conjuncts
are about one `Result.new` call with the version and dbserver checks
passing: on `StopIteration` the result is the single end-of-task
(`msg = 'TASK_ENDED'`, no traceback) whose payload length is the
`sentbytes` argument, and the monitor-exit increment of `counts` is undone
so the `StopIteration` is not counted as a call (counts is back to its
entry value, while the exit alone had incremented it); on any other
exception the result is a failure carrying the pickled exception and its
formatted traceback. The third conjunct runs the whole send loop of
`safely_call` on a normally-ending generator: exactly one emitted result
is an end-of-task, it comes last, and its payload length equals the
cumulative `len(res.pik)` of the results sent before it. -/
theorem C3_task_ended (env : WorkerEnv) (mon : Monitor) (sb : Nat)
    (yields : List TaskVal) (rs : List Result)
    (hv : mon.version = "") (hh : mon.dbHost = env.dbHost) :
    (∀ r, ResultNew env .stop mon sb = .ok r →
      r.msg = "TASK_ENDED" ∧ r.pik.len = sb ∧ r.tb_str = "" ∧
      r.mon.counts = mon.counts ∧ (monExit mon).counts = mon.counts + 1) ∧
    (∀ k ks a tb r, ResultNew env (.exc k ks a tb) mon sb = .ok r →
      r.tb_str = tb ∧ r.msg = "" ∧ r.func = none ∧
      r.pik.unpickleP = .ok (.pyexc k ks a)) ∧
    (runGen env mon 0 yields .stop = .ok rs →
      (rs.filter (fun x => x.msg = "TASK_ENDED")).length = 1 ∧
      ∃ rend, rs.getLast? = some rend ∧ rend.msg = "TASK_ENDED" ∧
        rend.pik.len = ((rs.dropLast).map (fun x => x.pik.len)).sum) := by
  refine ⟨?_, ?_, ?_⟩
  · intro r h
    unfold ResultNew at h
    rw [if_neg (by simp [hv]), if_neg (by simp [hh])] at h
    unfold Result.make at h
    simp at h
    exact ⟨by rw [← h], by rw [← h]; simp [Payload.len], by rw [← h],
      by rw [← h]; simp [monExit], by simp [monExit]⟩
  · intro k ks a tb r h
    unfold ResultNew at h
    rw [if_neg (by simp [hv]), if_neg (by simp [hh])] at h
    unfold Result.make at h
    simp at h
    exact ⟨by rw [← h], by rw [← h], by rw [← h],
      by rw [← h]; exact unpickleP_one_mkPickled _⟩
  · intro h
    have hs := runGen_stop_shape env yields mon 0 rs hv hh h
    refine ⟨hs.1, ?_⟩
    obtain ⟨rend, h1, h2, h3⟩ := hs.2
    exact ⟨rend, h1, h2, by simpa using h3⟩

/-- Witness for C3 at `sentbytes = 5` and the empty generator. -/
theorem C3_task_ended_witness :
    endedRes5.msg = "TASK_ENDED" ∧ endedRes5.pik.len = 5 ∧
    endedRes5.mon.counts = ({} : Monitor).counts ∧
    ([endedRes0].filter (fun x => x.msg = "TASK_ENDED")).length = 1 := by
  have h := C3_task_ended ({} : WorkerEnv) {} 5 [] [endedRes0] rfl rfl
  have h1 := h.1 endedRes5 rfl
  have h3 := h.2.2 rfl
  exact ⟨h1.1, h1.2.1, h1.2.2.2.1, h3.1⟩

/-- C6: soft memory limit — when a worker's memory usage is over the soft
limit but not over the hard limit, `safely_call` sends a warning `Result`
(value `None`, empty traceback: not a failure) before any result of the
task; `IterResult._iter` logs the memory warning exactly once however many
results follow; and the consumer still observes all the task's normal
outputs with no exception raised (the warning itself surfaces as a single
leading `None`). -/
theorem C6_soft_memory (env : WorkerEnv) (mon : Monitor)
    (yields : List TaskVal) (rs rest : List Result) (r0 : Result)
    (hsoft : env.softPercent < env.usedPercent)
    (hhard : env.usedPercent ≤ env.hardPercent)
    (hrun : runGen env mon 0 yields .stop = .ok rs) :
    safelyCallEmit env mon yields .stop =
      .ok (warningResult env mon (softMemMsg env) :: rs) ∧
    (warningResult env mon (softMemMsg env)).tb_str = "" ∧
    (iterRun env true (r0 :: rest)).logged = 1 ∧
    (iterRun env true (warningResult env mon (softMemMsg env) :: rest)).vals =
      .pynone :: (iterRun env false rest).vals ∧
    (iterRun env true (warningResult env mon (softMemMsg env) :: rest)).raised =
      (iterRun env false rest).raised := by
  have hc := checkMemUsage_soft env hsoft hhard
  refine ⟨?_, rfl, iterRun_logged_once env r0 rest hsoft hhard,
    (iterRun_warning_head env mon rest hsoft hhard).1,
    (iterRun_warning_head env mon rest hsoft hhard).2⟩
  simp [safelyCallEmit, hc, hrun, Result.make, softMemMsg_ne_ended env,
    warningResult]

/-- Witness for C6: a trivial task in a 60%-used environment with soft
limit 50 and hard limit 99. -/
theorem C6_soft_memory_witness :
    safelyCallEmit c6env {} [] .stop =
      .ok [warningResult c6env {} (softMemMsg c6env), endedRes0] ∧
    (iterRun c6env true [warningResult c6env {} (softMemMsg c6env)]).logged
      = 1 ∧
    (iterRun c6env true [warningResult c6env {} (softMemMsg c6env)]).vals =
      [.pynone] ∧
    (iterRun c6env true [warningResult c6env {} (softMemMsg c6env)]).raised =
      none := by
  have h := C6_soft_memory c6env {} [] [endedRes0] []
    (warningResult c6env {} (softMemMsg c6env)) (by decide) (by decide) rfl
  refine ⟨by simpa using h.1, h.2.2.1, ?_, ?_⟩
  · have hv := h.2.2.2.1
    simpa using hv
  · have hr := h.2.2.2.2
    simpa using hr

/-- C8, counterexample: an element that is already an envelope is passed
through by `pickle_sequence`, so unpickling the output yields the wrapped
value (`42`), which under Python `==` is not the input element (the
`Pickled` instance itself) — the claimed observational equivalence
`unpickle(out[i]) == values[i]` fails on `[Pickled(42)]`. -/
theorem C8_pickle_sequence_counterexample :
    (pickleSeq envelopeInput).map PickledObj.unpickle = [some (.pyint 42)] ∧
    envelopeInput.map ObjRef.obj = [.env (mkPickled (.pyint 42))] ∧
    pyEqObjB (some (.pyint 42)) (.env (mkPickled (.pyint 42))) = false :=
  ⟨rfl, rfl, rfl⟩

/-- C8, amended: under consistent identities (two references with the same
`id` are the same object, as in CPython), `pickle_sequence` sends each
element to its envelope — a fresh `Pickled` for plain data (so unpickling
the i-th output yields the i-th input), the existing envelope unchanged
for elements already pickled — hence two references to the same object
receive the same envelope; and a list of references to one single object
constructs at most one new `Pickled` (exactly one when the object is plain
data, none when it is already an envelope). -/
theorem C8_pickle_sequence_amended (objs : List ObjRef)
    (hwf : ∀ o1 ∈ objs, ∀ o2 ∈ objs, o1.oid = o2.oid → o1.obj = o2.obj) :
    pickleSeq objs = objs.map (fun o => objToPickled o.obj) ∧
    (∀ o ∈ objs, ∀ v, o.obj = .dat v →
      (objToPickled o.obj).unpickle = some v) ∧
    (∀ o ∈ objs, ∀ p, o.obj = .env p → objToPickled o.obj = p) ∧
    (∀ (o : ObjRef) (os : List ObjRef), (∀ o' ∈ os, o'.oid = o.oid) →
      pickleSeqCount (o :: os) = if isDat o.obj then 1 else 0) := by
  refine ⟨?_, ?_, ?_, ?_⟩
  · exact pickleSeqAux_map objs []
      (by intro o _ p hp; simp [List.lookup] at hp) hwf
  · intro o _ v hv
    rw [hv]
    simpa [objToPickled] using unpickle_mkPickled v
  · intro o _ p hp
    rw [hp]
    simp [objToPickled]
  · intro o os hos
    unfold pickleSeqCount
    simp only [pickleSeqAux, pickleStep]
    have hl : (List.lookup o.oid ([] : List (Nat × PickledObj))) = none := rfl
    simp only [hl]
    have hz := pickleSeqAux_count_cached os [(o.oid, objToPickled o.obj)] ?_
    · simp [hz]
    · intro o' ho'
      simp [List.lookup, hos o' ho']

/-- Witness for C8's amended statement on two references to one object. -/
theorem C8_pickle_sequence_amended_witness :
    pickleSeq dupInput = [mkPickled (.pyint 3), mkPickled (.pyint 3)] ∧
    pickleSeqCount dupInput = 1 := by
  have h := C8_pickle_sequence_amended dupInput ?hwf
  case hwf =>
    intro o1 h1 o2 h2 _
    simp [dupInput] at h1 h2
    rcases h1 with rfl | rfl <;> rcases h2 with rfl | rfl <;> rfl
  constructor
  · have h1 := h.1
    simpa [dupInput, objToPickled] using h1
  · have h4 := h.2.2.2 ⟨7, .dat (.pyint 3)⟩ [⟨7, .dat (.pyint 3)⟩]
      (by intro o' ho'; simp [dupInput] at ho'; rw [ho'])
    simpa [dupInput, isDat] using h4

/-- C1: letter-count MapReduce end-to-end — with `count(word)` returning
the letter-frequency map, the job over `[('hello',), ('world',)]` reduced
with the default `add` aggregation and empty accumulating map returns
exactly `{d:1, e:1, h:1, l:3, o:2, r:1, w:1}` (as a Python `==` on dicts),
for every arrival order of the two workers' results on the ingress: the
`inline` backend delivers `hello`'s results then `world`'s, while
`processpool` and `threadpool` deliver some interleaving (per-task order
is preserved, cross-task order is arbitrary), and all interleavings
produce the same reduced map. -/
theorem C1_letter_count (arrival : List Result)
    (h : arrival ∈
      interleavings (letterResults "hello") (letterResults "world")) :
    pyDictEqB (letterReduce arrival) letterExpected = true := by
  have hall : ((interleavings (letterResults "hello")
      (letterResults "world")).all
      (fun arr => pyDictEqB (letterReduce arr) letterExpected)) = true := by
    decide
  exact List.all_eq_true.mp hall arrival h

/-- Witness for C1 at the inline arrival order. -/
theorem C1_letter_count_witness :
    pyDictEqB (letterReduce (letterResults "hello" ++ letterResults "world"))
      letterExpected = true :=
  C1_letter_count _ (by decide)

end Parallel